import Mathlib

/-!
Verification of the survey-data consolidation tool (src/streamlit_app.py).

The program loads two tabular files with pandas, left-joins the
bad-responses table against four selected columns of the user-data table
on an email key, drops the duplicated key column, renames the carried
columns to canonical names, derives matched/unmatched counts, and offers
the result as a CSV download.

Tables are modelled as a header (list of column labels) together with a
list of rows; a cell is `Option String`, `none` standing for pandas NaN
(the missing marker).  pandas left-merge matches NaN keys with NaN keys,
which `Option` equality reproduces.
-/

namespace Survey

/-- A pandas cell: `none` models NaN (missing). -/
abbrev Cell := Option String

/-- A pandas DataFrame: ordered column labels plus rows of cells. -/
structure Table where
  header : List String
  rows : List (List Cell)
deriving DecidableEq

/-- Positional cell access; out-of-range reads give the missing marker,
matching how the engine only ever reads positions validated to exist. -/
def getCell (r : List Cell) (i : Nat) : Cell := r.getD i none

/-- What `read_file` decides to do with an uploaded file
(src/streamlit_app.py lines 6-15). -/
inductive LoadAction where
  | parseCsv : LoadAction
  | parseExcel : LoadAction
  | unsupportedFormat : String → LoadAction
deriving DecidableEq

/-- Prefix one character onto the first segment of a segmentation. -/
def consHead (ch : Char) : List (List Char) → List (List Char)
  | [] => [[ch]]
  | f :: rest => (ch :: f) :: rest

/-- Split a character list at every dot, like Python's `split('.')`. -/
def splitDot : List Char → List (List Char)
  | [] => [[]]
  | ch :: t => if ch = '.' then [] :: splitDot t else consHead ch (splitDot t)

/-- `uploaded_file.name.split('.')[-1].lower()` (line 8): the last
dot-separated component of the file name, lowercased (ASCII, as file
extensions are). -/
def fileExt (name : String) : String :=
  ⟨((splitDot name.data).getLastD []).map Char.toLower⟩

/-- `read_file` dispatch on the file extension (lines 10-15): csv is read
as CSV, xlsx/xls as a spreadsheet, anything else raises ValueError
("Unsupported file format"). -/
def read_file (name : String) : LoadAction :=
  let ext := fileExt name
  if ext = "csv" then .parseCsv
  else if ext = "xlsx" ∨ ext = "xls" then .parseExcel
  else .unsupportedFormat ext

/-- Outcome of the column validation at lines 73-79: an empty
bad-responses table is reported first; only then is the user-data table
checked for at least 8 columns. -/
inductive ValidationResult where
  | emptyBadTable : ValidationResult
  | insufficientColumns : ValidationResult
  | ok : ValidationResult
deriving DecidableEq

/-- Lines 73-79: `if len(bad_responses_df.columns) == 0: ... return`,
then `if len(user_data_df.columns) < 8: ... return`. -/
def validate (bad user : Table) : ValidationResult :=
  if bad.header.length = 0 then .emptyBadTable
  else if user.header.length < 8 then .insufficientColumns
  else .ok

/-- `bad_responses_email_col = bad_responses_df.columns[0]` (line 82). -/
def keyLbl (bad : Table) : String := bad.header.getD 0 ""

/-- `user_ref_col = user_data_df.columns[1]` (line 86). -/
def refLbl (user : Table) : String := user.header.getD 1 ""

/-- `email_col = user_data_df.columns[2]` (line 87). -/
def emailLbl (user : Table) : String := user.header.getD 2 ""

/-- `lucid_ref_col = user_data_df.columns[5]` (line 88). -/
def lucidLbl (user : Table) : String := user.header.getD 5 ""

/-- `country_col = user_data_df.columns[7]` (line 89). -/
def countryLbl (user : Table) : String := user.header.getD 7 ""

/-- One user-data row restricted to the four selected positions. -/
def sub4 (u : List Cell) : List Cell :=
  [getCell u 1, getCell u 2, getCell u 5, getCell u 7]

/-- `user_data_df[[user_ref_col, email_col, lucid_ref_col, country_col]]`
(line 117): the four columns at positions 1, 2, 5, 7 (labels resolved at
lines 86-89).  Label-based selection coincides with positional selection
when the user table's labels are duplicate-free, which the theorems
assume. -/
def userSubset (user : Table) : Table :=
  { header := [refLbl user, emailLbl user, lucidLbl user, countryLbl user],
    rows := user.rows.map sub4 }

/-- `pd.merge(left, right, left_on, right_on, how='left')` (lines 115-121)
for frames without clashing non-key labels: every left row is kept; with
no match the right columns are filled with NaN, with k matches the left
row repeats k times.  When `left_on = right_on` pandas collapses the two
key columns into one (keeping the left values in place); otherwise both
key columns appear. -/
def pdMergeLeft (left right : Table) (leftOn rightOn : String) : Table :=
  let li := left.header.indexOf leftOn
  let ri := right.header.indexOf rightOn
  if leftOn = rightOn then
    { header := left.header ++ right.header.eraseIdx ri,
      rows := left.rows.flatMap (fun l =>
        let ms := right.rows.filter (fun r => getCell r ri = getCell l li)
        if ms.isEmpty then [l ++ List.replicate (right.header.length - 1) none]
        else ms.map (fun r => l ++ r.eraseIdx ri)) }
  else
    { header := left.header ++ right.header,
      rows := left.rows.flatMap (fun l =>
        let ms := right.rows.filter (fun r => getCell r ri = getCell l li)
        if ms.isEmpty then [l ++ List.replicate right.header.length none]
        else ms.map (fun r => l ++ r)) }

/-- `merged_data.drop(columns=[lbl])` (line 125): removes every column
whose label is `lbl`. -/
def dropColumn (t : Table) (lbl : String) : Table :=
  let keep := (List.range t.header.length).filter (fun i => t.header.getD i "" ≠ lbl)
  { header := keep.map (fun i => t.header.getD i ""),
    rows := t.rows.map (fun r => keep.map (fun i => getCell r i)) }

/-- `merged_data.rename(columns={...})` (lines 128-132): each label is
sent through the mapping, labels not mentioned are kept. -/
def renameCols (t : Table) (m : List (String × String)) : Table :=
  { header := t.header.map (fun l => (((m.find? (fun p => p.1 = l)).map Prod.snd).getD l)),
    rows := t.rows }

/-- The consolidation pipeline of lines 82-132: resolve the five fixed
column positions, left-merge on the email key, drop the duplicated email
column when its label differs from the bad-responses key label
(lines 123-125), and rename the carried columns to `User_REF`,
`Lucid_Reference`, `Country`. -/
def consolidate (bad user : Table) : Table :=
  let merged := pdMergeLeft bad (userSubset user) (keyLbl bad) (emailLbl user)
  let dropped :=
    if emailLbl user ∈ merged.header ∧ emailLbl user ≠ keyLbl bad then
      dropColumn merged (emailLbl user)
    else merged
  renameCols dropped
    [(refLbl user, "User_REF"), (lucidLbl user, "Lucid_Reference"), (countryLbl user, "Country")]

/-- `final_df['User_REF']` (line 140): the column with that label, resolved
to its first occurrence. -/
def colByLabel (t : Table) (lbl : String) : List Cell :=
  t.rows.map (fun r => getCell r (t.header.indexOf lbl))

/-- `total_bad_responses = len(bad_responses_df)` (line 139). -/
def totalCount (bad : Table) : Int := bad.rows.length

/-- `matched_responses = final_df['User_REF'].notna().sum()` (line 140). -/
def matchedCount (final : Table) : Int :=
  ((colByLabel final "User_REF").filter (fun c => c.isSome)).length

/-- `unmatched_responses = total_bad_responses - matched_responses`
(line 141), over Python integers. -/
def unmatchedCount (bad final : Table) : Int := totalCount bad - matchedCount final

/-- `f"consolidated_bad_responses_{timestamp}.csv"` (line 172); the
timestamp string is `datetime.now().strftime("%Y%m%d_%H%M%S")`, passed in
here as a parameter since wall-clock time is outside the embedding. -/
def downloadFilename (timestamp : String) : String :=
  "consolidated_bad_responses_" ++ timestamp ++ ".csv"

/-- The user-data rows whose email cell (position 2) carries the key `k`.
These are exactly the rows a bad-responses row with key `k` joins with. -/
def matchesOf (user : Table) (k : Cell) : List (List Cell) :=
  user.rows.filter (fun u => getCell u 2 = k)

/-- Normal form of the consolidated rows: each bad-responses row `b`,
in order, contributes one all-missing-extended row when nothing matches,
and otherwise one extended row per matching user-data row.
`consolidate_normal` proves the pipeline equal to this form. -/
def consolidatedRows (bad user : Table) : List (List Cell) :=
  bad.rows.flatMap (fun b =>
    if (matchesOf user (getCell b 0)).isEmpty then [b ++ [none, none, none]]
    else (matchesOf user (getCell b 0)).map
      (fun u => b ++ [getCell u 1, getCell u 5, getCell u 7]))

/-- Normal form of the consolidated header: the bad-responses columns
followed by the three renamed carried columns. -/
def consolidatedHeader (bad : Table) : List String :=
  bad.header ++ ["User_REF", "Lucid_Reference", "Country"]

/-- Well-formedness of an input pair: both tables passed the column
validation of lines 73-79, rows are rectangular (as pandas guarantees for
loaded frames), and the labels involved in the merge/drop/rename steps do
not clash.  Under clashing labels pandas would suffix or multi-select
columns, situations the tool neither documents nor supports; the spec's
"valid inputs" are read as excluding them. -/
structure Wf (bad user : Table) : Prop where
  badCols : 0 < bad.header.length
  userCols : 8 ≤ user.header.length
  badRect : ∀ r ∈ bad.rows, r.length = bad.header.length
  userRect : ∀ r ∈ user.rows, r.length = user.header.length
  refNeEmail : refLbl user ≠ emailLbl user
  refNeLucid : refLbl user ≠ lucidLbl user
  refNeCountry : refLbl user ≠ countryLbl user
  emailNeLucid : emailLbl user ≠ lucidLbl user
  emailNeCountry : emailLbl user ≠ countryLbl user
  lucidNeCountry : lucidLbl user ≠ countryLbl user
  refFresh : refLbl user ∉ bad.header
  lucidFresh : lucidLbl user ∉ bad.header
  countryFresh : countryLbl user ∉ bad.header
  emailFresh : emailLbl user = keyLbl bad ∨ emailLbl user ∉ bad.header
  canonFresh : "User_REF" ∉ bad.header

/-- Whether pandas CSV writing (QUOTE_MINIMAL) must quote a field: it
contains the delimiter, the quote character, or a line-terminator
character. -/
def needsQuote (s : List Char) : Bool :=
  s.any (fun ch => ch = ',' ∨ ch = '"' ∨ ch = '\n' ∨ ch = '\r')

/-- Double every quote character (CSV quote escaping). -/
def escQuote : List Char → List Char
  | [] => []
  | ch :: t => if ch = '"' then '"' :: '"' :: escQuote t else ch :: escQuote t

/-- Encode one CSV field: quote and escape exactly when needed. -/
def encField (s : List Char) : List Char :=
  if needsQuote s then '"' :: (escQuote s ++ ['"']) else s

/-- Encode one CSV record: encoded fields joined by commas. -/
def encRecord : List (List Char) → List Char
  | [] => []
  | [c] => encField c
  | c :: rest => encField c ++ ',' :: encRecord rest

/-- How pandas renders a cell in CSV output: NaN becomes the empty
field. -/
def cellToChars : Cell → List Char
  | none => []
  | some s => s.data

/-- The raw (unencoded) records of a table in output order: the header
record first, then one record per row. -/
def rawRecords (t : Table) : List (List (List Char)) :=
  (t.header.map String.data) :: t.rows.map (fun r => r.map cellToChars)

/-- `final_df.to_csv(csv_buffer, index=False)` (line 167) at character
level: every record — header first, then the rows in order, with no
index column — encoded and terminated by a newline. -/
def to_csv (t : Table) : List Char :=
  ((rawRecords t).map encRecord).flatMap (fun rcd => rcd ++ ['\n'])

/-- Prefix a chunk onto the first segment of a segmentation. -/
def prepend1 (xs : List Char) : List (List Char) → List (List Char)
  | [] => [xs]
  | f :: rest => (xs ++ f) :: rest

/-- Quote-aware splitter, the inverse direction of the CSV encoding: cut
at every occurrence of `sep` that lies outside double quotes (tracking
the quote parity in `inQ`).  Defined independently of the encoder so that
the round-trip theorems are meaningful. -/
def splitQA (sep : Char) : Bool → List Char → List (List Char)
  | _, [] => [[]]
  | inQ, ch :: t =>
    if ch = sep ∧ inQ = false then [] :: splitQA sep false t
    else consHead ch (splitQA sep (if ch = '"' then !inQ else inQ) t)

/-- Quote parity after consuming `s` from state `q`. -/
def qpar (q : Bool) (s : List Char) : Bool :=
  s.foldl (fun b ch => if ch = '"' then !b else b) q

/-- A chunk that the splitter passes through without cutting and that
leaves the parity unquoted, whatever follows it. -/
def RunsClean (sep : Char) (s : List Char) : Prop :=
  ∀ t, splitQA sep false (s ++ t) = prepend1 s (splitQA sep false t)

/-- C3 scenario bad-responses table: one email column with two rows. -/
def badC3 : Table := ⟨["Bad_Email"], [[some "a@x.com"], [some "b@x.com"]]⟩

/-- C3 scenario user-data table: eight columns, one row. -/
def userC3 : Table :=
  ⟨["ID", "Ref", "Email", "D", "E", "Lucid", "G", "Country"],
   [[some "1", some "U1", some "a@x.com", none, none, some "L1", none, some "US"]]⟩

/-- Fan-out scenario bad-responses table: a single row. -/
def badFan : Table := ⟨["E"], [[some "a@x.com"]]⟩

/-- Fan-out scenario user-data table: two rows sharing the email key. -/
def userFan : Table :=
  ⟨["ID", "Ref", "Email", "D", "E2", "Lucid", "G", "Country"],
   [[some "1", some "U1", some "a@x.com", none, none, some "L1", none, some "US"],
    [some "2", some "U2", some "a@x.com", none, none, some "L2", none, some "DE"]]⟩

/-- Same-label scenario: the bad-responses key column is itself called
`Email`, the label of the user-data matching column. -/
def badSame : Table := ⟨["Email"], [[some "a@x.com"], [some "b@x.com"]]⟩

/-- A bad-responses table with no columns at all (as an empty spreadsheet
loads). -/
def badZero : Table := ⟨[], []⟩

/-- A user-data table with only 7 columns. -/
def userSeven : Table := ⟨["c1", "c2", "c3", "c4", "c5", "c6", "c7"], []⟩

theorem map_range_getD {α : Type} (b t : List α) (d : α) :
    (List.range b.length).map (fun i => (b ++ t).getD i d) = b := by
  induction b with
  | nil => rfl
  | cons a b ih =>
    rw [List.length_cons, List.range_succ_eq_map, List.map_cons, List.map_map]
    simp only [List.cons_append, List.getD_cons_zero, Function.comp_def,
      Nat.succ_eq_add_one, List.getD_cons_succ]
    rw [ih]

theorem range_add_four (n : Nat) :
    List.range (n + 4) = List.range n ++ [n, n + 1, n + 2, n + 3] := by
  have h4 : List.range 4 = [0, 1, 2, 3] := by decide
  rw [List.range_add, h4]
  simp

theorem keyLbl_indexOf (bad : Table) (h0 : 0 < bad.header.length) :
    bad.header.indexOf (keyLbl bad) = 0 := by
  obtain ⟨a, B, hB⟩ := List.exists_cons_of_ne_nil (List.length_pos.mp h0)
  rw [keyLbl, hB, List.getD_cons_zero, List.indexOf_cons_self]

theorem emailLbl_indexOf_sub (user : Table) (hre : refLbl user ≠ emailLbl user) :
    (userSubset user).header.indexOf (emailLbl user) = 1 := by
  show ([refLbl user, emailLbl user, lucidLbl user, countryLbl user]).indexOf
    (emailLbl user) = 1
  rw [List.indexOf_cons_ne _ hre, List.indexOf_cons_self]

/-- The key comparison in the merge, pushed through the column selection:
filtering the projected user rows on position 1 is filtering the full
user rows on position 2. -/
theorem filter_sub4 (user : Table) (k : Cell) :
    (userSubset user).rows.filter (fun r => getCell r 1 = k) =
      (matchesOf user k).map sub4 := by
  show ((user.rows.map sub4).filter fun r => getCell r 1 = k) = _
  rw [List.filter_map]
  rfl

/-- The merge of lines 115-121 in the case where the bad-responses key
label coincides with the user email label: pandas keeps a single key
column and the carried columns are ref, lucid, country. -/
theorem pdMergeLeft_sub_same (bad user : Table)
    (h0 : 0 < bad.header.length)
    (hre : refLbl user ≠ emailLbl user)
    (hE : emailLbl user = keyLbl bad) :
    pdMergeLeft bad (userSubset user) (keyLbl bad) (emailLbl user) =
      { header := bad.header ++ [refLbl user, lucidLbl user, countryLbl user],
        rows := consolidatedRows bad user } := by
  have hli := keyLbl_indexOf bad h0
  have hri := emailLbl_indexOf_sub user hre
  simp only [pdMergeLeft, if_pos hE.symm, hli, hri]
  rw [Table.mk.injEq]
  refine ⟨rfl, ?_⟩
  rw [consolidatedRows]
  apply List.flatMap_congr
  intro b _
  rw [filter_sub4]
  cases hms : matchesOf user (getCell b 0) with
  | nil => rfl
  | cons u ms =>
    simp only [List.map_cons, List.isEmpty_cons, List.map_map]
    rfl

/-- The merge of lines 115-121 in the case where the bad-responses key
label differs from the user email label: the email column is carried into
the output (to be dropped at lines 123-125). -/
theorem pdMergeLeft_sub_ne (bad user : Table)
    (h0 : 0 < bad.header.length)
    (hre : refLbl user ≠ emailLbl user)
    (hNE : emailLbl user ≠ keyLbl bad) :
    pdMergeLeft bad (userSubset user) (keyLbl bad) (emailLbl user) =
      { header := bad.header ++
          [refLbl user, emailLbl user, lucidLbl user, countryLbl user],
        rows := bad.rows.flatMap (fun b =>
          if (matchesOf user (getCell b 0)).isEmpty then
            [b ++ [none, none, none, none]]
          else (matchesOf user (getCell b 0)).map (fun u => b ++ sub4 u)) } := by
  have hli := keyLbl_indexOf bad h0
  have hri := emailLbl_indexOf_sub user hre
  have hcond : ¬(keyLbl bad = emailLbl user) := fun hc => hNE hc.symm
  simp only [pdMergeLeft, hli, hri]
  rw [if_neg hcond, Table.mk.injEq]
  refine ⟨rfl, ?_⟩
  apply List.flatMap_congr
  intro b _
  rw [filter_sub4]
  cases hms : matchesOf user (getCell b 0) with
  | nil => rfl
  | cons u ms =>
    simp only [List.map_cons, List.isEmpty_cons, List.map_map]
    rfl

/-- The column-index set kept by `drop(columns=[x1])` on a header of the
shape `B ++ [x0, x1, x2, x3]` where only the column at position
`B.length + 1` bears the label `x1`. -/
theorem drop_keep (B : List String) (x0 x1 x2 x3 : String)
    (h0 : x0 ≠ x1) (h2 : x2 ≠ x1) (h3 : x3 ≠ x1) (hB : x1 ∉ B) :
    (List.range (B ++ [x0, x1, x2, x3]).length).filter
      (fun i => (B ++ [x0, x1, x2, x3]).getD i "" ≠ x1) =
      List.range B.length ++ [B.length, B.length + 2, B.length + 3] := by
  have hlen : (B ++ [x0, x1, x2, x3]).length = B.length + 4 := by simp
  rw [hlen, range_add_four, List.filter_append]
  have e0 : (B ++ [x0, x1, x2, x3]).getD B.length "" = x0 := by
    rw [List.getD_append_right _ _ _ _ (Nat.le_refl _), Nat.sub_self]; rfl
  have e1 : (B ++ [x0, x1, x2, x3]).getD (B.length + 1) "" = x1 := by
    rw [List.getD_append_right _ _ _ _ (Nat.le_add_right _ _), Nat.add_sub_cancel_left]; rfl
  have e2 : (B ++ [x0, x1, x2, x3]).getD (B.length + 2) "" = x2 := by
    rw [List.getD_append_right _ _ _ _ (Nat.le_add_right _ _), Nat.add_sub_cancel_left]; rfl
  have e3 : (B ++ [x0, x1, x2, x3]).getD (B.length + 3) "" = x3 := by
    rw [List.getD_append_right _ _ _ _ (Nat.le_add_right _ _), Nat.add_sub_cancel_left]; rfl
  have hfirst : (List.range B.length).filter
      (fun i => decide ((B ++ [x0, x1, x2, x3]).getD i "" ≠ x1)) = List.range B.length := by
    apply List.filter_eq_self.mpr
    intro i hi
    refine decide_eq_true ?_
    have hiB : i < B.length := List.mem_range.mp hi
    rw [List.getD_append _ _ _ i hiB, List.getD_eq_getElem B "" hiB]
    exact fun hmem => hB (hmem ▸ List.getElem_mem hiB)
  rw [hfirst]
  have hsecond : List.filter (fun i => decide ((B ++ [x0, x1, x2, x3]).getD i "" ≠ x1))
      [B.length, B.length + 1, B.length + 2, B.length + 3] =
      [B.length, B.length + 2, B.length + 3] := by
    simp only [List.filter_cons, List.filter_nil, e0, e1, e2, e3]
    simp [h0, h2, h3]
  rw [hsecond]

/-- Projecting a row of shape `b ++ [c0, c1, c2, c3]` onto the kept index
set removes exactly the cell at position `b.length + 1`. -/
theorem keep_map {α : Type} (b : List α) (c0 c1 c2 c3 d : α) (n : Nat) (hb : b.length = n) :
    (List.range n ++ [n, n + 2, n + 3]).map
      (fun i => (b ++ [c0, c1, c2, c3]).getD i d) = b ++ [c0, c2, c3] := by
  subst hb
  rw [List.map_append, map_range_getD]
  have g0 : (b ++ [c0, c1, c2, c3]).getD b.length d = c0 := by
    rw [List.getD_append_right _ _ _ _ (Nat.le_refl _), Nat.sub_self]; rfl
  have g2 : (b ++ [c0, c1, c2, c3]).getD (b.length + 2) d = c2 := by
    rw [List.getD_append_right _ _ _ _ (Nat.le_add_right _ _), Nat.add_sub_cancel_left]; rfl
  have g3 : (b ++ [c0, c1, c2, c3]).getD (b.length + 3) d = c3 := by
    rw [List.getD_append_right _ _ _ _ (Nat.le_add_right _ _), Nat.add_sub_cancel_left]; rfl
  rw [List.map_cons, List.map_cons, List.map_cons, List.map_nil, g0, g2, g3]

/-- The rename of lines 128-132 on a header of the shape `B ++ [r, l, c]`
where none of the three renamed labels occurs in `B`. -/
theorem renameCols_three (B : List String) (r l c : String) (rows : List (List Cell))
    (hBr : r ∉ B) (hBl : l ∉ B) (hBc : c ∉ B)
    (hrl : r ≠ l) (hrc : r ≠ c) (hlc : l ≠ c) :
    renameCols ⟨B ++ [r, l, c], rows⟩
        [(r, "User_REF"), (l, "Lucid_Reference"), (c, "Country")] =
      ⟨B ++ ["User_REF", "Lucid_Reference", "Country"], rows⟩ := by
  rw [renameCols, Table.mk.injEq]
  refine ⟨?_, rfl⟩
  rw [List.map_append]
  congr 1
  · have : ∀ x ∈ B,
        ((([(r, "User_REF"), (l, "Lucid_Reference"), (c, "Country")].find?
          (fun p => p.1 = x)).map Prod.snd).getD x) = id x := by
      intro x hx
      have hr : ¬(r = x) := fun hh => hBr (hh ▸ hx)
      have hl : ¬(l = x) := fun hh => hBl (hh ▸ hx)
      have hc : ¬(c = x) := fun hh => hBc (hh ▸ hx)
      simp [List.find?, hr, hl, hc]
    rw [List.map_congr_left this, List.map_id]
  · simp [List.find?, hrl, hrc, hlc]

/-- `keep_map` stated with the program's cell accessor. -/
theorem keep_map_row (b : List Cell) (c0 c1 c2 c3 : Cell) (n : Nat) (hb : b.length = n) :
    (List.range n ++ [n, n + 2, n + 3]).map
      (fun i => getCell (b ++ [c0, c1, c2, c3]) i) = b ++ [c0, c2, c3] :=
  keep_map b c0 c1 c2 c3 none n hb

/-- Dropping the carried email column (lines 123-125) from the merged
table of the different-label case yields the canonical rows. -/
theorem drop_merge_ne (bad user : Table) (h : Wf bad user)
    (hNE : emailLbl user ≠ keyLbl bad) :
    dropColumn
      { header := bad.header ++
          [refLbl user, emailLbl user, lucidLbl user, countryLbl user],
        rows := bad.rows.flatMap (fun b =>
          if (matchesOf user (getCell b 0)).isEmpty then
            [b ++ [none, none, none, none]]
          else (matchesOf user (getCell b 0)).map (fun u => b ++ sub4 u)) }
      (emailLbl user) =
    { header := bad.header ++ [refLbl user, lucidLbl user, countryLbl user],
      rows := consolidatedRows bad user } := by
  have hEf : emailLbl user ∉ bad.header := h.emailFresh.resolve_left hNE
  have hkeep := drop_keep bad.header (refLbl user) (emailLbl user) (lucidLbl user)
    (countryLbl user) h.refNeEmail (Ne.symm h.emailNeLucid) (Ne.symm h.emailNeCountry) hEf
  simp only [dropColumn]
  rw [hkeep, Table.mk.injEq]
  constructor
  · exact keep_map bad.header _ _ _ _ "" bad.header.length rfl
  · rw [List.map_flatMap, consolidatedRows]
    apply List.flatMap_congr
    intro b hb
    have hbl : b.length = bad.header.length := h.badRect b hb
    cases hms : matchesOf user (getCell b 0) with
    | nil =>
      simp only [List.isEmpty_nil, if_true, List.map_cons, List.map_nil]
      rw [keep_map_row b none none none none bad.header.length hbl]
    | cons u ms =>
      simp only [List.isEmpty_cons, Bool.false_eq_true, if_false, List.map_map]
      apply List.map_congr_left
      intro v hv
      simp only [Function.comp_def, sub4]
      exact keep_map_row b _ _ _ _ bad.header.length hbl

/-- Under well-formedness, the whole pipeline of lines 110-132 equals the
canonical left-join: bad-responses columns followed by the three renamed
carried columns, one output row per match and an all-missing extension
when nothing matches. -/
theorem consolidate_normal (bad user : Table) (h : Wf bad user) :
    consolidate bad user = ⟨consolidatedHeader bad, consolidatedRows bad user⟩ := by
  by_cases hE : emailLbl user = keyLbl bad
  · have hm := pdMergeLeft_sub_same bad user h.badCols h.refNeEmail hE
    simp only [consolidate, hm]
    have hcond : ¬(emailLbl user ∈ bad.header ++
        [refLbl user, lucidLbl user, countryLbl user] ∧
        emailLbl user ≠ keyLbl bad) := fun hc => hc.2 hE
    rw [if_neg hcond]
    exact renameCols_three bad.header (refLbl user) (lucidLbl user) (countryLbl user)
      (consolidatedRows bad user) h.refFresh h.lucidFresh h.countryFresh
      h.refNeLucid h.refNeCountry h.lucidNeCountry
  · have hm := pdMergeLeft_sub_ne bad user h.badCols h.refNeEmail hE
    simp only [consolidate, hm]
    have hcond : emailLbl user ∈ bad.header ++
        [refLbl user, emailLbl user, lucidLbl user, countryLbl user] ∧
        emailLbl user ≠ keyLbl bad := ⟨by simp, hE⟩
    rw [if_pos hcond, drop_merge_ne bad user h hE]
    exact renameCols_three bad.header (refLbl user) (lucidLbl user) (countryLbl user)
      (consolidatedRows bad user) h.refFresh h.lucidFresh h.countryFresh
      h.refNeLucid h.refNeCountry h.lucidNeCountry

theorem wfC3 : Wf badC3 userC3 := by
  constructor <;> decide

theorem wfFan : Wf badFan userFan := by
  constructor <;> decide

theorem wfSame : Wf badSame userC3 := by
  constructor <;> decide

theorem getCell_append_zero (b t : List Cell) (hb : 0 < b.length) :
    getCell (b ++ t) 0 = getCell b 0 := by
  simp only [getCell]
  exact List.getD_append _ _ _ 0 hb

theorem length_filter_le_one_of_nodup_map {α β : Type} [DecidableEq β]
    (l : List α) (f : α → β) (k : β) (h : (l.map f).Nodup) :
    (l.filter (fun x => f x = k)).length ≤ 1 := by
  induction l with
  | nil => simp
  | cons a t ih =>
    rw [List.map_cons, List.nodup_cons] at h
    by_cases hk : f a = k
    · have hnil : t.filter (fun x => f x = k) = [] := by
        rw [List.filter_eq_nil_iff]
        intro x hx
        simp only [decide_eq_true_eq]
        intro hfx
        exact h.1 (List.mem_map.mpr ⟨x, hx, hfx.trans hk.symm⟩)
      simp [List.filter_cons, hk, hnil]
    · rw [List.filter_cons, if_neg (by simp [hk])]
      exact ih h.2

theorem sum_map_ite {α : Type} (l : List α) (p : α → Prop) [DecidablePred p] (m : Nat) :
    (l.map (fun a => if p a then m else 0)).sum = l.countP (fun a => decide (p a)) * m := by
  induction l with
  | nil => simp
  | cons a t ih =>
    rw [List.map_cons, List.sum_cons, ih, List.countP_cons]
    by_cases hp : p a
    · simp only [hp, if_pos, decide_eq_true_eq, if_true]
      ring
    · simp [hp]

/-- C1: left-join completeness (lines 115-121).  For every pair of loaded
tables that pass column validation (and are well-formed), every row of the
bad-responses table appears at least once in the consolidated output — as
the prefix of some output row — and a bad-responses row whose join-key
value matches zero rows of the user-data table still appears, with the
three carried-over columns (`User_REF`, `Lucid_Reference`, `Country`)
populated with the explicit missing marker. -/
theorem C1_left_join_completeness (bad user : Table) (h : Wf bad user)
    (b : List Cell) (hb : b ∈ bad.rows) :
    (∃ r ∈ (consolidate bad user).rows, r.take bad.header.length = b) ∧
    (matchesOf user (getCell b 0) = [] →
      b ++ [none, none, none] ∈ (consolidate bad user).rows) := by
  have hbl : b.length = bad.header.length := h.badRect b hb
  rw [consolidate_normal bad user h]
  constructor
  · show ∃ r ∈ consolidatedRows bad user, r.take bad.header.length = b
    cases hms : matchesOf user (getCell b 0) with
    | nil =>
      refine ⟨b ++ [none, none, none], ?_, ?_⟩
      · rw [consolidatedRows]
        exact List.mem_flatMap.mpr ⟨b, hb, by simp [hms]⟩
      · rw [← hbl, List.take_left]
    | cons u ms =>
      refine ⟨b ++ [getCell u 1, getCell u 5, getCell u 7], ?_, ?_⟩
      · rw [consolidatedRows]
        refine List.mem_flatMap.mpr ⟨b, hb, ?_⟩
        rw [hms]
        simp only [List.isEmpty_cons, Bool.false_eq_true, if_false]
        exact List.mem_map.mpr ⟨u, List.mem_cons_self u ms, rfl⟩
      · rw [← hbl, List.take_left]
  · intro hnone
    show b ++ [none, none, none] ∈ consolidatedRows bad user
    rw [consolidatedRows]
    exact List.mem_flatMap.mpr ⟨b, hb, by simp [hnone]⟩

/-- Witness for C1 at the C3 scenario tables, on the unmatched row. -/
theorem C1_left_join_completeness_witness :
    (∃ r ∈ (consolidate badC3 userC3).rows,
      r.take badC3.header.length = [some "b@x.com"]) ∧
    (matchesOf userC3 (getCell [some "b@x.com"] 0) = [] →
      [some "b@x.com"] ++ [none, none, none] ∈ (consolidate badC3 userC3).rows) :=
  C1_left_join_completeness badC3 userC3 wfC3 [some "b@x.com"] (by decide)

/-- C2: the count invariant of lines 139-141.  Whatever the input pair,
the derived counts satisfy matched + unmatched = total, because the code
computes unmatched as total minus matched over (possibly negative) Python
integers. -/
theorem C2_count_invariant (bad user : Table) :
    matchedCount (consolidate bad user) + unmatchedCount bad (consolidate bad user) =
      totalCount bad := by
  simp only [unmatchedCount]
  omega

/-- C3: the concrete email-keyed scenario.  Two bad-response emails, one
matching user row: the output has exactly the two expected rows, with the
matched row carrying `U1`, `L1`, `US` and the unmatched row all-missing,
and the counts are matched = 1, unmatched = 1 (total = 2). -/
theorem C3_scenario :
    consolidate badC3 userC3 =
      ⟨["Bad_Email", "User_REF", "Lucid_Reference", "Country"],
       [[some "a@x.com", some "U1", some "L1", some "US"],
        [some "b@x.com", none, none, none]]⟩ ∧
    matchedCount (consolidate badC3 userC3) = 1 ∧
    unmatchedCount badC3 (consolidate badC3 userC3) = 1 ∧
    totalCount badC3 = 2 := by
  refine ⟨by decide, by decide, by decide, by decide⟩

/-- C4: duplicate-column drop (lines 123-125).  When the carried matching
column (the user-data email column) bears the very same label as the join
key's source column (bad-responses column 0), the consolidated output
contains no extra email column: its header is exactly the bad-responses
header followed by the three canonical carried names.  (pandas collapses
the two identically-named key columns during the merge, so the duplicate
never reaches the output; with differing labels the explicit drop at line
125 achieves the same.) -/
theorem C4_duplicate_drop (bad user : Table) (h : Wf bad user)
    (_hE : emailLbl user = keyLbl bad) :
    (consolidate bad user).header =
      bad.header ++ ["User_REF", "Lucid_Reference", "Country"] := by
  rw [consolidate_normal bad user h]
  rfl

/-- Witness for C4: the same-label scenario. -/
theorem C4_duplicate_drop_witness :
    (consolidate badSame userC3).header =
      badSame.header ++ ["User_REF", "Lucid_Reference", "Country"] :=
  C4_duplicate_drop badSame userC3 wfSame (by decide)

/-- C5 counterexample: with a bad-responses table that has zero columns
(as an empty spreadsheet loads) and a 7-column user-data table, the code
returns at the empty-bad-table check (lines 73-75) before ever reaching
the column-count check, so InsufficientColumns is not reported even
though the user-data table has fewer than 8 columns. -/
theorem C5_counterexample :
    ¬((validate badZero userSeven = ValidationResult.insufficientColumns) ↔
      userSeven.header.length < 8) := by
  decide

/-- C5 (amended): the InsufficientColumns failure occurs if and only if
the bad-responses table has at least one column and the user-data table
has fewer than 8 columns (lines 73-79: the empty-bad-table check runs
first). -/
theorem C5_insufficient_iff (bad user : Table) :
    validate bad user = ValidationResult.insufficientColumns ↔
      (0 < bad.header.length ∧ user.header.length < 8) := by
  simp only [validate]
  by_cases h1 : bad.header.length = 0
  · simp [h1]
  · by_cases h2 : user.header.length < 8
    · simp [h1, h2, Nat.pos_of_ne_zero h1]
    · simp [h1, h2]

/-- C6: unique-key row count (lines 115-121).  When the user-data email
column holds no duplicate values, each bad-responses row joins with at
most one user-data row, so the consolidated output has exactly as many
rows as the bad-responses table. -/
theorem C6_unique_key_row_count (bad user : Table) (h : Wf bad user)
    (huniq : (user.rows.map (fun u => getCell u 2)).Nodup) :
    (consolidate bad user).rows.length = bad.rows.length := by
  rw [consolidate_normal bad user h]
  show (consolidatedRows bad user).length = bad.rows.length
  rw [consolidatedRows, List.length_flatMap]
  have hone : ∀ b ∈ bad.rows,
      (List.length ∘ fun b =>
        if (matchesOf user (getCell b 0)).isEmpty then [b ++ [none, none, none]]
        else (matchesOf user (getCell b 0)).map
          (fun u => b ++ [getCell u 1, getCell u 5, getCell u 7])) b
      = (fun _ => 1) b := by
    intro b _
    simp only [Function.comp_def]
    have hle : (matchesOf user (getCell b 0)).length ≤ 1 :=
      length_filter_le_one_of_nodup_map user.rows (fun u => getCell u 2)
        (getCell b 0) huniq
    cases hms : matchesOf user (getCell b 0) with
    | nil => simp
    | cons u ms =>
      rw [hms] at hle
      rw [List.length_cons] at hle
      have hmsnil : ms = [] := List.eq_nil_of_length_eq_zero (by omega)
      subst hmsnil
      simp
  rw [List.map_congr_left hone]
  simp [List.map_const', List.sum_replicate]

/-- Witness for C6 at the C3 scenario (single user row, trivially
duplicate-free). -/
theorem C6_unique_key_row_count_witness :
    (consolidate badC3 userC3).rows.length = badC3.rows.length :=
  C6_unique_key_row_count badC3 userC3 wfC3 (by decide)

/-- C7: fan-out on duplicate keys (lines 115-121).  If a key value occurs
in more than one user-data row, every bad-responses row bearing that value
is duplicated once per match: the output rows carrying that key number
exactly (bad rows with the key) x (user rows with the key). -/
theorem C7_fanout (bad user : Table) (h : Wf bad user) (k : Cell)
    (hk : 1 < user.rows.countP (fun u => getCell u 2 = k)) :
    (consolidate bad user).rows.countP (fun r => getCell r 0 = k) =
      bad.rows.countP (fun b => getCell b 0 = k) *
        user.rows.countP (fun u => getCell u 2 = k) := by
  rw [consolidate_normal bad user h]
  show (consolidatedRows bad user).countP _ = _
  rw [consolidatedRows, List.countP_flatMap]
  have hmlen : (matchesOf user k).length = user.rows.countP (fun u => getCell u 2 = k) :=
    (List.countP_eq_length_filter _ _).symm
  have hpt : ∀ b ∈ bad.rows,
      (List.countP (fun r => getCell r 0 = k) ∘ fun b =>
        if (matchesOf user (getCell b 0)).isEmpty then [b ++ [none, none, none]]
        else (matchesOf user (getCell b 0)).map
          (fun u => b ++ [getCell u 1, getCell u 5, getCell u 7])) b
      = (fun b => if getCell b 0 = k then
          user.rows.countP (fun u => getCell u 2 = k) else 0) b := by
    intro b hb
    have hb0 : 0 < b.length := by
      rw [h.badRect b hb]
      exact h.badCols
    simp only [Function.comp_def]
    by_cases hbk : getCell b 0 = k
    · rw [hbk, if_pos rfl]
      have hne : (matchesOf user k).isEmpty = false := by
        cases hmm : matchesOf user k with
        | nil =>
          rw [hmm] at hmlen
          simp at hmlen
          omega
        | cons x xs => rfl
      rw [hne]
      simp only [Bool.false_eq_true, if_false]
      have hall : ((matchesOf user k).map
          (fun u => b ++ [getCell u 1, getCell u 5, getCell u 7])).countP
          (fun r => getCell r 0 = k) =
          ((matchesOf user k).map
            (fun u => b ++ [getCell u 1, getCell u 5, getCell u 7])).length := by
        rw [List.countP_eq_length]
        intro r hr
        obtain ⟨u, _, rfl⟩ := List.mem_map.mp hr
        simp only [decide_eq_true_eq]
        rw [getCell_append_zero b _ hb0]
        exact hbk
      rw [hall, List.length_map, hmlen]
    · rw [if_neg hbk]
      rw [List.countP_eq_zero]
      intro r hr
      by_cases hemp : (matchesOf user (getCell b 0)).isEmpty
      · rw [hemp, if_pos rfl] at hr
        obtain rfl := List.mem_singleton.mp hr
        simp only [decide_eq_true_eq]
        rw [getCell_append_zero b _ hb0]
        exact hbk
      · rw [if_neg (by simp [hemp])] at hr
        obtain ⟨u, _, rfl⟩ := List.mem_map.mp hr
        simp only [decide_eq_true_eq]
        rw [getCell_append_zero b _ hb0]
        exact hbk
  rw [List.map_congr_left hpt]
  exact sum_map_ite bad.rows (fun b => getCell b 0 = k) _

/-- Witness for C7 at the fan-out scenario: one bad row, two matching
user rows, two output rows with the key. -/
theorem C7_fanout_witness :
    (consolidate badFan userFan).rows.countP
      (fun r => getCell r 0 = some "a@x.com") =
    badFan.rows.countP (fun b => getCell b 0 = some "a@x.com") *
      userFan.rows.countP (fun u => getCell u 2 = some "a@x.com") :=
  C7_fanout badFan userFan wfFan (some "a@x.com") (by decide)

/-- C10 (implicit): matched is counted over the fanned-out output rows
(line 140) while total is the input row count (line 139), so with
duplicate keys matched can exceed total and the reported unmatched count
goes negative: here total = 1, matched = 2, unmatched = -1. -/
theorem C10_negative_unmatched :
    totalCount badFan = 1 ∧
    matchedCount (consolidate badFan userFan) = 2 ∧
    unmatchedCount badFan (consolidate badFan userFan) = -1 ∧
    totalCount badFan < matchedCount (consolidate badFan userFan) := by
  refine ⟨by decide, by decide, by decide, by decide⟩

/-- C8: loader format dispatch (lines 6-15).  `read_file` fails with the
unsupported-format error exactly when the lowercased extension is neither
`csv` nor `xlsx`/`xls`; a `csv` extension is parsed as CSV and an
`xlsx`/`xls` extension as a spreadsheet. -/
theorem C8_format_dispatch (name : String) :
    ((∃ e, read_file name = LoadAction.unsupportedFormat e) ↔
      fileExt name ∉ ["csv", "xlsx", "xls"]) ∧
    (fileExt name = "csv" → read_file name = LoadAction.parseCsv) ∧
    ((fileExt name = "xlsx" ∨ fileExt name = "xls") →
      read_file name = LoadAction.parseExcel) := by
  by_cases h1 : fileExt name = "csv"
  · simp [read_file, h1]
  · by_cases h2 : fileExt name = "xlsx" ∨ fileExt name = "xls"
    · simp [read_file, h1, h2]
    · rw [not_or] at h2
      simp [read_file, h1, h2.1, h2.2]

/-- Witness for C8: an `.xls` upload is routed to the spreadsheet
parser. -/
theorem C8_format_dispatch_witness :
    read_file "report.xls" = LoadAction.parseExcel :=
  (C8_format_dispatch "report.xls").2.2 (Or.inr (by decide))

theorem splitQA_cons_sep (sep : Char) (t : List Char) :
    splitQA sep false (sep :: t) = [] :: splitQA sep false t := by
  simp [splitQA]

theorem splitQA_cons_ne (sep ch : Char) (q : Bool) (t : List Char)
    (h : ¬(ch = sep ∧ q = false)) :
    splitQA sep q (ch :: t) =
      consHead ch (splitQA sep (if ch = '"' then !q else q) t) := by
  simp only [splitQA]
  rw [if_neg h]

theorem consHead_ne_nil (ch : Char) (L : List (List Char)) : consHead ch L ≠ [] := by
  cases L <;> simp [consHead]

theorem splitQA_ne_nil (sep : Char) (q : Bool) (s : List Char) : splitQA sep q s ≠ [] := by
  induction s generalizing q with
  | nil => simp [splitQA]
  | cons ch t ih =>
    by_cases hc : ch = sep ∧ q = false
    · simp only [splitQA]
      rw [if_pos hc]
      simp
    · rw [splitQA_cons_ne sep ch q t hc]
      exact consHead_ne_nil _ _

theorem consHead_prepend1 (ch : Char) (s : List Char) (L : List (List Char)) :
    consHead ch (prepend1 s L) = prepend1 (ch :: s) L := by
  cases L <;> simp [consHead, prepend1]

theorem consHead_eq_prepend1 (ch : Char) (L : List (List Char)) :
    consHead ch L = prepend1 [ch] L := by
  cases L <;> simp [consHead, prepend1]

theorem prepend1_append (x y : List Char) (L : List (List Char)) :
    prepend1 (x ++ y) L = prepend1 x (prepend1 y L) := by
  cases L <;> simp [prepend1, List.append_assoc]

theorem prepend1_nil_left (L : List (List Char)) (h : L ≠ []) : prepend1 [] L = L := by
  cases L with
  | nil => exact absurd rfl h
  | cons f rest => simp [prepend1]

theorem runs_safe (sep : Char) : ∀ (s : List Char),
    (∀ ch ∈ s, ch ≠ sep ∧ ch ≠ '"') → RunsClean sep s
  | [], _ => fun t => by
    rw [List.nil_append, prepend1_nil_left _ (splitQA_ne_nil _ _ _)]
  | ch :: s, h => fun t => by
    have hch := h ch (List.mem_cons_self ch s)
    have ihs := runs_safe sep s (fun c hc => h c (List.mem_cons_of_mem ch hc)) t
    rw [List.cons_append,
      splitQA_cons_ne sep ch false _ (fun hc => hch.1 hc.1)]
    have hq0 : (if ch = '"' then !false else false) = false := by rw [if_neg hch.2]
    rw [hq0, ihs, consHead_prepend1]

theorem run_true_escQuote (sep : Char) (hsep : sep ≠ '"') : ∀ (s rest : List Char),
    splitQA sep true (escQuote s ++ rest) =
      prepend1 (escQuote s) (splitQA sep true rest)
  | [], rest => by
    simp only [escQuote]
    rw [List.nil_append, prepend1_nil_left _ (splitQA_ne_nil _ _ _)]
  | ch :: s, rest => by
    by_cases hq : ch = '"'
    · subst hq
      simp only [escQuote, if_true]
      rw [List.cons_append, List.cons_append,
        splitQA_cons_ne sep '"' true _ (fun hc => absurd hc.2 (by decide))]
      have h1 : (if ('"' : Char) = '"' then !true else true) = false := by decide
      rw [h1, splitQA_cons_ne sep '"' false _ (fun hc => hsep hc.1.symm)]
      have h2 : (if ('"' : Char) = '"' then !false else false) = true := by decide
      rw [h2, run_true_escQuote sep hsep s rest, consHead_prepend1, consHead_prepend1]
    · simp only [escQuote, if_neg hq]
      rw [List.cons_append,
        splitQA_cons_ne sep ch true _ (fun hc => absurd hc.2 (by decide))]
      have h1 : (if ch = '"' then !true else true) = true := by rw [if_neg hq]
      rw [h1, run_true_escQuote sep hsep s rest, consHead_prepend1]

theorem runs_encField (sep : Char) (hs : sep = ',' ∨ sep = '\n') (s : List Char) :
    RunsClean sep (encField s) := by
  have hsep : sep ≠ '"' := by rcases hs with h | h <;> subst h <;> decide
  cases hqn : needsQuote s with
  | false =>
    rw [encField, if_neg (by simp [hqn])]
    apply runs_safe
    intro ch hch
    have hnq : ¬(ch = ',' ∨ ch = '"' ∨ ch = '\n' ∨ ch = '\r') := by
      intro hor
      have : needsQuote s = true := by
        rw [needsQuote]
        exact List.any_eq_true.mpr ⟨ch, hch, by simp [hor]⟩
      rw [hqn] at this
      exact absurd this (by decide)
    refine ⟨?_, fun hh => hnq (Or.inr (Or.inl hh))⟩
    rcases hs with h | h <;> subst h
    · exact fun hh => hnq (Or.inl hh)
    · exact fun hh => hnq (Or.inr (Or.inr (Or.inl hh)))
  | true =>
    intro t
    rw [encField, if_pos (by simp [hqn])]
    rw [List.cons_append, List.append_assoc, List.singleton_append,
      splitQA_cons_ne sep '"' false _ (fun hc => hsep hc.1.symm)]
    have h2 : (if ('"' : Char) = '"' then !false else false) = true := by decide
    rw [h2, run_true_escQuote sep hsep s ('"' :: t),
      splitQA_cons_ne sep '"' true _ (fun hc => absurd hc.2 (by decide))]
    have h3 : (if ('"' : Char) = '"' then !true else true) = false := by decide
    rw [h3, consHead_eq_prepend1 '"' (splitQA sep false t), ← prepend1_append,
      consHead_prepend1]

theorem runs_append (sep : Char) (a b : List Char)
    (ha : RunsClean sep a) (hb : RunsClean sep b) : RunsClean sep (a ++ b) := by
  intro t
  rw [List.append_assoc, ha (b ++ t), hb t, prepend1_append]

theorem runs_encRecord_newline : ∀ (cells : List (List Char)),
    RunsClean '\n' (encRecord cells)
  | [] => fun t => by
    simp only [encRecord]
    rw [List.nil_append, prepend1_nil_left _ (splitQA_ne_nil _ _ _)]
  | [c] => by
    simp only [encRecord]
    exact runs_encField '\n' (Or.inr rfl) c
  | c :: c' :: cs => by
    simp only [encRecord]
    have h1 : (',' :: encRecord (c' :: cs)) = [','] ++ encRecord (c' :: cs) := rfl
    rw [h1]
    refine runs_append _ _ _ (runs_encField '\n' (Or.inr rfl) c)
      (runs_append _ _ _ (runs_safe '\n' [','] ?_) (runs_encRecord_newline (c' :: cs)))
    intro ch hch
    rw [List.mem_singleton] at hch
    subst hch
    exact ⟨by decide, by decide⟩

theorem splitQA_records (sep : Char) : ∀ (records : List (List Char)),
    (∀ r ∈ records, RunsClean sep r) →
    splitQA sep false (records.flatMap (fun r => r ++ [sep])) = records ++ [[]]
  | [], _ => by simp [splitQA]
  | r :: rs, h => by
    rw [List.flatMap_cons, List.append_assoc,
      h r (List.mem_cons_self r rs) ([sep] ++ rs.flatMap (fun r => r ++ [sep])),
      List.singleton_append, splitQA_cons_sep,
      splitQA_records sep rs (fun x hx => h x (List.mem_cons_of_mem r hx))]
    simp [prepend1]

theorem splitQA_encRecord_comma : ∀ (cells : List (List Char)), cells ≠ [] →
    splitQA ',' false (encRecord cells) = cells.map encField
  | [], h => absurd rfl h
  | [c], _ => by
    simp only [encRecord, List.map_cons, List.map_nil]
    have h1 := runs_encField ',' (Or.inl rfl) c []
    rw [List.append_nil] at h1
    rw [h1]
    simp [prepend1, splitQA]
  | c :: c' :: cs, _ => by
    simp only [encRecord]
    rw [runs_encField ',' (Or.inl rfl) c (',' :: encRecord (c' :: cs)),
      splitQA_cons_sep, splitQA_encRecord_comma (c' :: cs) (by simp)]
    simp [prepend1]

/-- C9: export shape (lines 165-172).  For every well-formed consolidated
table the CSV encoding succeeds, and splitting the produced text at
unquoted newlines recovers exactly the encoded header record first and
then the encoded data records in row order (plus the empty trailing
segment of the final newline) — no extra index column; splitting any
record at unquoted commas recovers its encoded cells in column order; and
the download filename is `consolidated_bad_responses_<timestamp>.csv`. -/
theorem C9_export_shape (t : Table) (ts : String)
    (hcols : 0 < t.header.length)
    (hrect : ∀ r ∈ t.rows, r.length = t.header.length) :
    splitQA '\n' false (to_csv t) = (rawRecords t).map encRecord ++ [[]] ∧
    (∀ rcd ∈ rawRecords t, splitQA ',' false (encRecord rcd) = rcd.map encField) ∧
    downloadFilename ts = "consolidated_bad_responses_" ++ ts ++ ".csv" := by
  refine ⟨?_, ?_, rfl⟩
  · rw [to_csv]
    apply splitQA_records
    intro r hr
    obtain ⟨rcd, _, rfl⟩ := List.mem_map.mp hr
    exact runs_encRecord_newline rcd
  · intro rcd hrcd
    apply splitQA_encRecord_comma
    rcases List.mem_cons.mp hrcd with hh | hh
    · subst hh
      intro hnil
      rw [List.map_eq_nil_iff] at hnil
      rw [hnil] at hcols
      exact absurd hcols (by decide)
    · obtain ⟨r, hrr, rfl⟩ := List.mem_map.mp hh
      intro hnil
      rw [List.map_eq_nil_iff] at hnil
      have := hrect r hrr
      rw [hnil] at this
      simp only [List.length_nil] at this
      rw [← this] at hcols
      exact absurd hcols (by decide)

/-- Witness for C9 at the C3 scenario bad-responses table. -/
theorem C9_export_shape_witness :
    splitQA '\n' false (to_csv badC3) = (rawRecords badC3).map encRecord ++ [[]] ∧
    (∀ rcd ∈ rawRecords badC3,
      splitQA ',' false (encRecord rcd) = rcd.map encField) ∧
    downloadFilename "20250101_000000" =
      "consolidated_bad_responses_" ++ "20250101_000000" ++ ".csv" :=
  C9_export_shape badC3 "20250101_000000" (by decide) (by decide)

end Survey
